import Mathlib

/-!
Verification of the nanobot SillyTavern core: the World Info activation engine
(`src/nanobot/sillytavern/world_info.py`) and the structured Memory retrieval
engine (`src/nanobot/sillytavern/memory.py`), shallowly embedded in Lean.

Conventions of the embedding:
* Python `int` is modelled by `Int`; Python strings by `String` (lists of
  characters); Python's stable `list.sort` by `List.insertionSort` (stable).
* `random.randint(1, 100)` draws are made explicit: activation takes the draw
  for each entry position as a function `draws : Nat → Int`, so properties can
  be quantified over every possible draw.
* Character classes (`\w`, `str.lower`, `re.IGNORECASE`) are modelled over the
  ASCII + CJK ranges actually exercised by the code's own examples.
* A `WorldInfoBook` is embedded as the list of its entries in iteration order
  (the Python code iterates `book.entries.values()`); a `MemoryBook` keeps its
  entry list.  Mutation of entries during retrieval is modelled by indexing
  entries with their position (Python mutates objects in place; positions play
  the role of object identity).
-/

set_option maxHeartbeats 1000000

namespace Nanobot

/-! ### Data model (src/nanobot/sillytavern/types.py) -/

/-- One world-info entry (`WorldInfoEntry` dataclass). -/
structure WorldInfoEntry where
  uid : Int := 0
  key : List String := []
  keysecondary : List String := []
  comment : String := ""
  content : String := ""
  constant : Bool := false
  selective : Bool := false
  selective_logic : Int := 0
  disable : Bool := false
  probability : Int := 100
  use_probability : Bool := false
  order : Int := 100
  position : Int := 0
  depth : Int := 4
  case_sensitive : Bool := false
  match_whole_words : Bool := false
  deriving DecidableEq, Repr

/-- Activation configuration (`WorldInfoConfig` dataclass). -/
structure WorldInfoConfig where
  enabled : Bool := true
  scan_depth : Int := 5
  max_entries : Int := 10
  max_tokens : Int := 2048
  recursive_scan : Bool := false
  deriving DecidableEq, Repr

/-! ### Key matching (world_info.py, `_key_matches`) -/

/-- Python truthiness of `s.strip()`, negated: a string strips to empty iff
every character is whitespace (`str.strip` removes exactly whitespace). -/
def isBlank (s : String) : Bool := s.toList.all Char.isWhitespace

/-- A regex word character (`\w` over ASCII): alphanumeric or underscore. -/
def wordChar (c : Char) : Bool := c.isAlphanum || c == '_'

/-- Word-character test on an optional character; out-of-range counts as non-word. -/
def wordCharOpt : Option Char → Bool
  | some c => wordChar c
  | none => false

/-- Case folding used by matching: identity when case-sensitive, otherwise
lower-case every character (models `str.lower` / `re.IGNORECASE`). -/
def foldCase (cs : Bool) (l : List Char) : List Char :=
  if cs then l else l.map Char.toLower

/-- Plain substring test (Python `needle in hay`), by scanning all positions. -/
def isSubstr (needle hay : List Char) : Bool :=
  (List.range (hay.length + 1)).any (fun i => decide ((hay.drop i).take needle.length = needle))

/-- The regex `\b` word-boundary test at position `p` of `l`: true iff exactly
one of the character before `p` and the character at `p` is a word character. -/
def boundaryAt (l : List Char) (p : Nat) : Bool :=
  ((p != 0) && wordCharOpt l[p-1]?) != wordCharOpt l[p]?

/-- Match of `\b needle \b` anchored at position `i` of `hay`. -/
def wholeWordAt (needle hay : List Char) (i : Nat) : Bool :=
  decide ((hay.drop i).take needle.length = needle) && boundaryAt hay i
    && boundaryAt hay (i + needle.length)

/-- `re.search` of the pattern `\b re.escape(needle) \b` over `hay`. -/
def wholeWordSearch (needle hay : List Char) : Bool :=
  (List.range (hay.length + 1)).any (wholeWordAt needle hay)

/-- `_key_matches(key, context, case_sensitive, whole_words)` from world_info.py. -/
def keyMatches (key context : String) (cs ww : Bool) : Bool :=
  if isBlank key then false
  else if ww then wholeWordSearch (foldCase cs key.toList) (foldCase cs context.toList)
  else isSubstr (foldCase cs key.toList) (foldCase cs context.toList)

/-- `_any_key_matches(keys, context, case_sensitive, whole_words)`. -/
def anyKeyMatches (keys : List String) (context : String) (cs ww : Bool) : Bool :=
  keys.any (fun k => keyMatches k context cs ww)

/-! ### Activation logic (world_info.py) -/

/-- `_check_selective(entry, context)`: combinator over secondary-key matches. -/
def checkSelective (entry : WorldInfoEntry) (context : String) : Bool :=
  let ms := entry.keysecondary.map
    (fun k => keyMatches k context entry.case_sensitive entry.match_whole_words)
  if entry.selective_logic = 0 then ms.any id
  else if entry.selective_logic = 1 then !ms.all id
  else if entry.selective_logic = 2 then !ms.any id
  else if entry.selective_logic = 3 then ms.all id
  else true

/-- `_check_entry_activation(entry, context, config)`.  The random draw that
`random.randint(1, 100)` would produce is passed explicitly as `draw`; the
config argument is received but (as in the source) not consulted. -/
def checkEntryActivation (entry : WorldInfoEntry) (context : String)
    (_cfg : WorldInfoConfig) (draw : Int) : Bool :=
  if entry.constant then true
  else if entry.key = [] then false
  else if entry.use_probability ∧ entry.probability < 100 ∧ entry.probability < draw then false
  else if anyKeyMatches entry.key context entry.case_sensitive entry.match_whole_words = false
    then false
  else if entry.selective ∧ entry.keysecondary ≠ [] then checkSelective entry context
  else true

/-- The per-entry filter of the activation loop in `get_activated_entries`:
skip disabled entries, skip whitespace-only content, then evaluate activation.
The entry is paired with its iteration index, which selects its random draw. -/
def entryPasses (context : String) (cfg : WorldInfoConfig) (draws : Nat → Int)
    (p : Nat × WorldInfoEntry) : Bool :=
  !p.2.disable && !isBlank p.2.content && checkEntryActivation p.2 context cfg (draws p.1)

/-- The pre-truncation activated list built by the loop of
`get_activated_entries` (lines 110-117 of world_info.py), in iteration order. -/
def activatedEntries (book : List WorldInfoEntry) (context : String)
    (cfg : WorldInfoConfig) (draws : Nat → Int) : List WorldInfoEntry :=
  (book.enum.filter (entryPasses context cfg draws)).map Prod.snd

/-- The ascending comparison `lambda e: e.order` used by `activated.sort`. -/
def wiLE (a b : WorldInfoEntry) : Prop := a.order ≤ b.order

instance : DecidableRel wiLE := fun a b => inferInstanceAs (Decidable (a.order ≤ b.order))

instance : IsTotal WorldInfoEntry wiLE := ⟨fun a b => Int.le_total a.order b.order⟩

instance : IsTrans WorldInfoEntry wiLE := ⟨fun _ _ _ => Int.le_trans⟩

/-- `get_activated_entries(book, context, config)`: filter, stable sort by
`order`, then truncate to `max_entries` when that limit is positive and
exceeded. -/
def getActivatedEntries (book : List WorldInfoEntry) (context : String)
    (config : Option WorldInfoConfig) (draws : Nat → Int) : List WorldInfoEntry :=
  let cfg := config.getD {}
  let sorted := (activatedEntries book context cfg draws).insertionSort wiLE
  if 0 < cfg.max_entries ∧ cfg.max_entries < (sorted.length : Int) then
    sorted.take cfg.max_entries.toNat
  else sorted

/-! ### Memory data model (src/nanobot/sillytavern/types.py) -/

/-- One structured memory entry (`MemoryEntry` dataclass). -/
structure MemoryEntry where
  id : String := ""
  content : String := ""
  created_at : String := ""
  last_accessed_at : String := ""
  access_count : Int := 0
  entry_type : String := "manual"
  keywords : List String := []
  importance : Int := 50
  category : String := ""
  source : String := ""
  enabled : Bool := true
  deriving DecidableEq, Repr

/-- Book-level retrieval settings (`MemoryBookSettings` dataclass). -/
structure MemoryBookSettings where
  max_memories_per_request : Int := 10
  max_memory_tokens : Int := 1000
  use_keyword_retrieval : Bool := true
  min_importance : Int := 50
  sort_by : String := "importance"
  deriving DecidableEq, Repr

/-- A memory book (`MemoryBook` dataclass). -/
structure MemoryBook where
  id : String := ""
  name : String := ""
  character_id : String := ""
  session_key : String := ""
  created_at : String := ""
  updated_at : String := ""
  entries : List MemoryEntry := []
  settings : MemoryBookSettings := {}
  deriving DecidableEq, Repr

/-! ### Keyword extraction and scoring (memory.py) -/

/-- The `_STOP_WORDS` set of memory.py. -/
def stopWords : List String :=
  ["the", "a", "an", "is", "are", "was", "were", "be", "been", "being",
   "have", "has", "had", "do", "does", "did", "will", "would", "could",
   "should", "may", "might", "must", "can", "and", "or", "but", "if",
   "then", "else", "when", "where", "why", "how", "what", "which", "who",
   "whom", "this", "that", "these", "those", "for", "with", "about",
   "into", "through", "during", "before", "after", "above", "below",
   "from", "up", "down", "in", "out", "on", "off", "over", "under",
   "not", "only", "own", "same", "so", "than", "too", "very", "just"]

/-- Characters kept by the scrubbing regex `[^\w\s一-鿿]` of
`_extract_keywords`: word characters, whitespace, and the CJK range.  Every
other character is replaced by a space. -/
def keepChar (c : Char) : Bool :=
  c.isAlphanum || c == '_' || c.isWhitespace || (0x4e00 ≤ c.toNat && c.toNat ≤ 0x9fff)

/-- Split a character list into maximal whitespace-free words (Python
`str.split()` with no separator), accumulating the current word reversed. -/
def splitWSAux (acc : List Char) : List Char → List (List Char)
  | [] => if acc = [] then [] else [acc.reverse]
  | c :: rest =>
    if c.isWhitespace then
      if acc = [] then splitWSAux [] rest else acc.reverse :: splitWSAux [] rest
    else splitWSAux (c :: acc) rest

/-- First-occurrence deduplication (Python `dict.fromkeys` ordering). -/
def dedupFirst (seen : List String) : List String → List String
  | [] => []
  | x :: xs => if x ∈ seen then dedupFirst seen xs else x :: dedupFirst (x :: seen) xs

/-- `_extract_keywords(text)`: lower-case, scrub non-word characters to
spaces, split on whitespace, keep tokens longer than 2 that are not stop
words, deduplicate preserving first-seen order. -/
def extractKeywords (text : String) : List String :=
  if isBlank text then []
  else
    let scrubbed := (text.toList.map Char.toLower).map (fun c => if keepChar c then c else ' ')
    let words := (splitWSAux [] scrubbed).map (fun w => String.mk w)
    dedupFirst [] (words.filter (fun w => 2 < w.length ∧ w ∉ stopWords))

/-- Lower-case a string character-wise (`str.lower` over ASCII). -/
def lowerStr (s : String) : String := String.mk (s.toList.map Char.toLower)

/-- Python's `needle in hay` on strings. -/
def substrB (needle hay : String) : Bool := isSubstr needle.toList hay.toList

/-- `_keyword_score(entry, keywords)`: 2.0 per (entry keyword, extracted
keyword) pair where the extracted keyword is a substring of the tag, plus 1.0
per extracted keyword occurring in the lower-cased content.  All increments
are integral, so the float score is embedded as a natural number. -/
def keywordScore (e : MemoryEntry) (kws : List String) : Nat :=
  2 * (e.keywords.map
        (fun ek => (kws.filter (fun kw => substrB (lowerStr kw) (lowerStr ek))).length)).sum
    + (kws.filter (fun kw => substrB kw (lowerStr e.content))).length

/-! ### Retrieval pipeline (memory.py, `retrieve_memories`) -/

/-- Python `x or default` for an optional integer argument: `None` and `0`
(falsy) both yield the default. -/
def orElseInt : Option Int → Int → Int
  | some m, d => if m = 0 then d else m
  | none, d => d

/-- Python `x or default` for an optional string argument: `None` and `""`
(falsy) both yield the default. -/
def orElseStr : Option String → String → String
  | some s, d => if s = "" then d else s
  | none, d => d

/-- Python list slicing `l[:n]` for a possibly negative `n`. -/
def pyTake {α : Type} (n : Int) (l : List α) : List α :=
  if 0 ≤ n then l.take n.toNat else l.take ((l.length : Int) + n).toNat

/-- Descending comparison by a key function, as used by
`sort(key=..., reverse=True)`; stable insertion sort under this relation
preserves the original order of equal keys. -/
def descBy {α : Type} {β : Type} [LinearOrder β] (f : α → β) (a b : α) : Prop := f b ≤ f a

instance {α : Type} {β : Type} [LinearOrder β] (f : α → β) : DecidableRel (descBy f) :=
  fun a b => inferInstanceAs (Decidable (f b ≤ f a))

instance {α : Type} {β : Type} [LinearOrder β] (f : α → β) : IsTotal α (descBy f) :=
  ⟨fun a b => le_total (f b) (f a)⟩

instance {α : Type} {β : Type} [LinearOrder β] (f : α → β) : IsTrans α (descBy f) :=
  ⟨fun _ _ _ h1 h2 => le_trans h2 h1⟩

/-- The enabled/importance filter of `retrieve_memories` (lines 170-174),
with each entry paired with its position in the book. -/
def filteredPairs (entries : List MemoryEntry) (minImp : Int) : List (Nat × MemoryEntry) :=
  entries.enum.filter (fun p => p.2.enabled && decide (minImp ≤ p.2.importance))

/-- The keyword-based filtering step of `retrieve_memories` (lines 176-188):
when the context is non-blank and keyword retrieval is enabled and extraction
yields keywords and at least one candidate scores positive, the candidate set
is replaced by the positive scorers sorted by score descending; otherwise the
candidate set passes through unchanged. -/
def kwStage (ctx : String) (s : MemoryBookSettings) (filtered : List (Nat × MemoryEntry)) :
    List (Nat × MemoryEntry) :=
  if isBlank ctx = false ∧ s.use_keyword_retrieval then
    let kws := extractKeywords ctx
    if kws ≠ [] then
      let scored := filtered.filter (fun p => 0 < keywordScore p.2 kws)
      if scored ≠ [] then scored.insertionSort (descBy (fun p => keywordScore p.2 kws))
      else filtered
    else filtered
  else filtered

/-- The strategy sort of `retrieve_memories` (lines 190-196): a stable
descending sort by importance, recency (timestamp string), or access count;
any other strategy leaves the list untouched. -/
def sortStage (order : String) (l : List (Nat × MemoryEntry)) : List (Nat × MemoryEntry) :=
  if order = "importance" then l.insertionSort (descBy (fun p => p.2.importance))
  else if order = "recency" then l.insertionSort (descBy (fun p => p.2.last_accessed_at))
  else if order = "access_count" then l.insertionSort (descBy (fun p => p.2.access_count))
  else l

/-- The indexed entries selected by one call to `retrieve_memories`: resolve
the effective limit/floor/strategy (lines 165-168), filter, keyword-filter,
sort, truncate. -/
def selectedPairs (book : MemoryBook) (ctx : String) (mm mi : Option Int)
    (sb : Option String) : List (Nat × MemoryEntry) :=
  let s := book.settings
  let limit := orElseInt mm s.max_memories_per_request
  let minImp := mi.getD s.min_importance
  let order := orElseStr sb s.sort_by
  pyTake limit (sortStage order (kwStage ctx s (filteredPairs book.entries minImp)))

/-- The access bookkeeping applied to each returned entry (lines 202-205). -/
def bumpEntry (now : String) (e : MemoryEntry) : MemoryEntry :=
  { e with last_accessed_at := now, access_count := e.access_count + 1 }

/-- Observable outcome of `retrieve_memories`: the returned list, the state
of the book after the call, and whether the book was persisted. -/
structure RetrieveOutcome where
  result : List MemoryEntry
  book : MemoryBook
  saved : Bool
  deriving DecidableEq, Repr

/-- `retrieve_memories(book_id, context, max_memories, min_importance,
sort_by)` on a loaded book, with the retrieval timestamp `now` passed
explicitly.  Selected entries are bumped in place (modelled by rebuilding the
entry list at the selected positions); the book is persisted iff the returned
list is nonempty. -/
def retrieveMemories (book : MemoryBook) (ctx : String) (mm mi : Option Int)
    (sb : Option String) (now : String) : RetrieveOutcome :=
  let sel := selectedPairs book ctx mm mi sb
  let selIdx := sel.map Prod.fst
  let result := sel.map (fun p => bumpEntry now p.2)
  if result = [] then { result := result, book := book, saved := false }
  else
    { result := result
      book := { book with
        updated_at := now
        entries := book.entries.enum.map (fun p => if p.1 ∈ selIdx then bumpEntry now p.2 else p.2) }
      saved := true }

/-! ### Specification-side predicates (used to state the claims) -/

/-- Whether a character list ends in a word character. -/
def lastIsWord (l : List Char) : Bool := wordCharOpt l.getLast?

/-- Whether a character list starts with a word character. -/
def headIsWord (l : List Char) : Bool := wordCharOpt l.head?

/-- The spec's reading of whole-word matching: the needle occurs somewhere in
the hay with a word boundary on each side (exactly one of the two adjacent
characters at each junction is a word character; the edges of the hay count
as non-word). -/
def OccursAtWordBoundary (needle hay : List Char) : Prop :=
  ∃ pre post, hay = pre ++ needle ++ post ∧
    lastIsWord pre ≠ headIsWord needle ∧ lastIsWord needle ≠ headIsWord post

/-- The spec's reading of plain substring matching. -/
def OccursAsSubstring (needle hay : List Char) : Prop :=
  ∃ pre post, hay = pre ++ needle ++ post

/-! ### Concrete inputs used to instantiate the theorems -/

/-- A constant world-info entry. -/
def exConst : WorldInfoEntry := { constant := true, content := "lore", order := 10 }

/-- A keyed world-info entry. -/
def exKeyed : WorldInfoEntry := { key := ["cat"], content := "cat lore", order := 30 }

/-- Another keyed world-info entry. -/
def exDog : WorldInfoEntry := { key := ["dog"], content := "dog lore", order := 20 }

/-- A configuration with `max_entries = 2`. -/
def wiCfg2 : WorldInfoConfig := { max_entries := 2 }

/-- A selective world-info entry that gates on a probability draw. -/
def exSelProb : WorldInfoEntry :=
  { key := ["a"], keysecondary := ["a"], selective := true, selective_logic := 0,
    use_probability := true, probability := 50, content := "gated" }

/-- A selective world-info entry with AndAll logic over two secondary keys. -/
def exSelAll : WorldInfoEntry :=
  { key := ["x"], keysecondary := ["a", "b"], selective := true, selective_logic := 3,
    content := "s" }

/-- An enabled memory entry. -/
def exMemA : MemoryEntry := { id := "a", content := "alpha fish", importance := 60 }

/-- Another enabled memory entry, with higher importance. -/
def exMemB : MemoryEntry := { id := "b", content := "beta bird", importance := 80 }

/-- A small memory book whose settings allow at most two results. -/
def exMemBook : MemoryBook :=
  { entries := [exMemA, exMemB], settings := { max_memories_per_request := 2 } }

/-! ### Helper lemmas -/

/-- A stable sort does not disturb the relative order of elements agreeing on
the sort key: filtering by any predicate all of whose satisfiers are mutually
related commutes with `insertionSort`. -/
theorem filter_insertionSort_stable {α : Type} (r : α → α → Prop) [DecidableRel r]
    (p : α → Bool) (l : List α) (hp : ∀ a b, p a = true → p b = true → r a b) :
    (l.insertionSort r).filter p = l.filter p := by
  have hpair : (l.filter p).Pairwise r := by
    apply List.pairwise_of_forall_mem_list
    intro a ha b hb
    exact hp a b (List.of_mem_filter ha) (List.of_mem_filter hb)
  have hsub : List.Sublist (l.filter p) (l.insertionSort r) :=
    List.sublist_insertionSort hpair (List.filter_sublist l)
  have hself : (l.filter p).filter p = l.filter p :=
    List.filter_eq_self.mpr (fun a ha => List.of_mem_filter ha)
  have hsub2 : List.Sublist (l.filter p) ((l.insertionSort r).filter p) := by
    have := hsub.filter p
    rwa [hself] at this
  have hperm : List.Perm ((l.insertionSort r).filter p) (l.filter p) :=
    (List.perm_insertionSort r l).filter p
  exact (hsub2.eq_of_length hperm.length_eq.symm).symm

/-- Every member of the activation loop's output comes from an indexed book
entry that passed the per-entry filter. -/
theorem exists_index_of_mem_activated {book : List WorldInfoEntry} {context : String}
    {cfg : WorldInfoConfig} {draws : Nat → Int} {e : WorldInfoEntry}
    (h : e ∈ activatedEntries book context cfg draws) :
    ∃ i, (i, e) ∈ book.enum ∧ entryPasses context cfg draws (i, e) = true := by
  unfold activatedEntries at h
  obtain ⟨⟨i, e'⟩, hp, he⟩ := List.mem_map.mp h
  obtain ⟨hmem, hpass⟩ := List.mem_filter.mp hp
  simp only at he
  subst he
  exact ⟨i, hmem, hpass⟩

/-- `get_activated_entries` unfolded to its sort-then-truncate form. -/
theorem getActivated_eq (book : List WorldInfoEntry) (context : String)
    (config : Option WorldInfoConfig) (draws : Nat → Int) :
    getActivatedEntries book context config draws =
      if 0 < (config.getD {}).max_entries ∧ (config.getD {}).max_entries <
          ((((activatedEntries book context (config.getD {}) draws).insertionSort wiLE).length : Int))
      then ((activatedEntries book context (config.getD {}) draws).insertionSort wiLE).take
          (config.getD {}).max_entries.toNat
      else (activatedEntries book context (config.getD {}) draws).insertionSort wiLE := rfl

/-- Membership in the final activated list implies membership in the
pre-truncation activation loop output. -/
theorem mem_activated_of_mem_getActivated {book : List WorldInfoEntry} {context : String}
    {config : Option WorldInfoConfig} {draws : Nat → Int} {e : WorldInfoEntry}
    (h : e ∈ getActivatedEntries book context config draws) :
    e ∈ activatedEntries book context (config.getD {}) draws := by
  rw [getActivated_eq] at h
  rw [← List.mem_insertionSort (r := wiLE)
    (l := activatedEntries book context (config.getD {}) draws)]
  split at h
  · exact List.mem_of_mem_take h
  · exact h

/-! ### C1 -/

/-- C1: for every world-info book, context string, config and random draws,
an entry included in the output of `get_activated_entries` is never disabled,
and has a nonempty key list unless it is constant — hence a disabled entry
(even a constant one) is never included, and an entry with empty keys and
`constant = false` is never included. -/
theorem c1_disabled_or_keyless_never_included
    (book : List WorldInfoEntry) (context : String) (config : Option WorldInfoConfig)
    (draws : Nat → Int) (e : WorldInfoEntry)
    (h : e ∈ getActivatedEntries book context config draws) :
    e.disable = false ∧ (e.constant = false → e.key ≠ []) := by
  obtain ⟨i, _, hpass⟩ := exists_index_of_mem_activated (mem_activated_of_mem_getActivated h)
  simp only [entryPasses, Bool.and_eq_true, Bool.not_eq_true'] at hpass
  obtain ⟨⟨hdis, _⟩, hact⟩ := hpass
  refine ⟨hdis, fun hconst hkey => ?_⟩
  simp [checkEntryActivation, hconst, hkey] at hact

/-- C1 witness: instantiated on a one-entry book whose constant entry is
returned. -/
theorem c1_witness :
    exConst.disable = false ∧ (exConst.constant = false → exConst.key ≠ []) :=
  c1_disabled_or_keyless_never_included [exConst] "ctx" none (fun _ => 1) exConst (by decide)

/-! ### C5 -/

/-- C5: every entry with `constant = true`, `disable = false` and
non-whitespace content appears in the pre-truncation activated set of
`get_activated_entries`, for every context, config and random draw —
independent of its key list, probability settings and selective settings. -/
theorem c5_constant_entries_always_activate
    (book : List WorldInfoEntry) (context : String) (cfg : WorldInfoConfig)
    (draws : Nat → Int) (e : WorldInfoEntry)
    (he : e ∈ book) (hc : e.constant = true) (hd : e.disable = false)
    (hcont : isBlank e.content = false) :
    e ∈ activatedEntries book context cfg draws := by
  obtain ⟨i, hi⟩ := List.mem_iff_getElem?.mp he
  have henum : (i, e) ∈ book.enum := List.mk_mem_enum_iff_getElem?.mpr hi
  have hpass : entryPasses context cfg draws (i, e) = true := by
    simp [entryPasses, hd, hcont, checkEntryActivation, hc]
  exact List.mem_map.mpr ⟨(i, e), List.mem_filter.mpr ⟨henum, hpass⟩, rfl⟩

/-- C5 witness: a constant entry of a two-entry book activates against an
unrelated context. -/
theorem c5_witness :
    exConst ∈ activatedEntries [exKeyed, exConst] "zzz" {} (fun _ => 1) :=
  c5_constant_entries_always_activate [exKeyed, exConst] "zzz" {} (fun _ => 1) exConst
    (by decide) (by decide) (by decide) (by decide)

/-! ### C8 -/

/-- C8: for every book, context, config and draws, the output of
`get_activated_entries` is the activated entries stably sorted ascending by
`order`: the sort is a permutation of the loop output, the result is pairwise
ordered by `order`, ties keep the original iteration order (filtering the
sorted list to any fixed `order` value gives exactly the original subsequence),
and with `max_entries > 0` the output is exactly the first `max_entries`
elements after sorting, while `max_entries ≤ 0` disables truncation. -/
theorem c8_sorted_stable_truncated
    (book : List WorldInfoEntry) (context : String) (config : Option WorldInfoConfig)
    (draws : Nat → Int) :
    List.Perm ((activatedEntries book context (config.getD {}) draws).insertionSort wiLE)
        (activatedEntries book context (config.getD {}) draws) ∧
    (getActivatedEntries book context config draws).Pairwise wiLE ∧
    (∀ o : Int,
      ((activatedEntries book context (config.getD {}) draws).insertionSort wiLE).filter
          (fun e => e.order == o)
        = (activatedEntries book context (config.getD {}) draws).filter (fun e => e.order == o)) ∧
    (0 < (config.getD {}).max_entries →
      getActivatedEntries book context config draws
        = ((activatedEntries book context (config.getD {}) draws).insertionSort wiLE).take
            (config.getD {}).max_entries.toNat) ∧
    ((config.getD {}).max_entries ≤ 0 →
      getActivatedEntries book context config draws
        = (activatedEntries book context (config.getD {}) draws).insertionSort wiLE) := by
  have hsorted : ((activatedEntries book context (config.getD {}) draws).insertionSort
      wiLE).Pairwise wiLE :=
    List.sorted_insertionSort wiLE (activatedEntries book context (config.getD {}) draws)
  refine ⟨List.perm_insertionSort wiLE _, ?_, ?_, ?_, ?_⟩
  · rw [getActivated_eq]
    split
    · exact hsorted.sublist (List.take_sublist _ _)
    · exact hsorted
  · intro o
    apply filter_insertionSort_stable
    intro a b ha hb
    have ha' : a.order = o := by simpa using ha
    have hb' : b.order = o := by simpa using hb
    show a.order ≤ b.order
    rw [ha', hb']
  · intro hpos
    rw [getActivated_eq]
    split
    · rfl
    · rename_i hcond
      have hlen : ((((activatedEntries book context (config.getD {}) draws).insertionSort
          wiLE).length : Int)) ≤ (config.getD {}).max_entries := by
        rcases not_and_or.mp hcond with h | h
        · exact absurd hpos h
        · exact not_lt.mp h
      exact (List.take_of_length_le (by omega)).symm
  · intro hnonpos
    rw [getActivated_eq]
    split
    · rename_i hcond
      exact absurd hcond.1 (by omega)
    · rfl

/-- C8 witness: a three-entry book with orders 30, 10, 20 all activated and
`max_entries = 2` returns exactly the first two elements after sorting. -/
theorem c8_witness :
    0 < ((some wiCfg2).getD ({} : WorldInfoConfig)).max_entries ∧
    getActivatedEntries [exKeyed, exConst, exDog] "cat dog" (some wiCfg2) (fun _ => 1)
      = ((activatedEntries [exKeyed, exConst, exDog] "cat dog" ((some wiCfg2).getD {})
          (fun _ => 1)).insertionSort wiLE).take ((some wiCfg2).getD
            ({} : WorldInfoConfig)).max_entries.toNat :=
  ⟨by decide,
    (c8_sorted_stable_truncated [exKeyed, exConst, exDog] "cat dog" (some wiCfg2)
      (fun _ => 1)).2.2.2.1 (by decide)⟩

/-! ### C7 -/

/-- C7 counterexample: an entry meeting every hypothesis of the claim as
stated — non-constant, non-disabled, primary key matching the context,
`selective = true`, nonempty secondary keys, AndAny logic with a matching
secondary key (so the combinator yields true) — whose activation is
nevertheless false, because the probability gate (`use_probability = true`,
`probability = 50`) rejects the draw 100 before selective logic is reached. -/
theorem c7_counterexample :
    exSelProb.constant = false ∧ exSelProb.disable = false ∧
    anyKeyMatches exSelProb.key "a" exSelProb.case_sensitive exSelProb.match_whole_words
      = true ∧
    exSelProb.selective = true ∧ exSelProb.keysecondary ≠ [] ∧
    exSelProb.selective_logic = 0 ∧
    (∃ k ∈ exSelProb.keysecondary,
      keyMatches k "a" exSelProb.case_sensitive exSelProb.match_whole_words = true) ∧
    checkEntryActivation exSelProb "a" {} 100 = false := by decide

/-- C7 (amended): for every non-constant, non-disabled entry whose primary
keys match the context, with `selective = true`, nonempty secondary keys,
AND whose probability gate passes (the random draw does not reject it),
activation equals the `selectiveLogic` combinator over the per-secondary-key
match results: code 0 iff some secondary key matches, code 1 iff not every
secondary key matches, code 2 iff no secondary key matches, code 3 iff every
secondary key matches, and any other code yields true. -/
theorem c7_selective_logic_combinator
    (entry : WorldInfoEntry) (context : String) (cfg : WorldInfoConfig) (draw : Int)
    (hconst : entry.constant = false)
    (_hdis : entry.disable = false)
    (hprim : anyKeyMatches entry.key context entry.case_sensitive entry.match_whole_words = true)
    (hsel : entry.selective = true)
    (hsec : entry.keysecondary ≠ [])
    (hprob : ¬ (entry.use_probability = true ∧ entry.probability < 100 ∧
      entry.probability < draw)) :
    (entry.selective_logic = 0 →
      (checkEntryActivation entry context cfg draw = true ↔
        ∃ k ∈ entry.keysecondary,
          keyMatches k context entry.case_sensitive entry.match_whole_words = true)) ∧
    (entry.selective_logic = 1 →
      (checkEntryActivation entry context cfg draw = true ↔
        ¬ ∀ k ∈ entry.keysecondary,
          keyMatches k context entry.case_sensitive entry.match_whole_words = true)) ∧
    (entry.selective_logic = 2 →
      (checkEntryActivation entry context cfg draw = true ↔
        ∀ k ∈ entry.keysecondary,
          keyMatches k context entry.case_sensitive entry.match_whole_words = false)) ∧
    (entry.selective_logic = 3 →
      (checkEntryActivation entry context cfg draw = true ↔
        ∀ k ∈ entry.keysecondary,
          keyMatches k context entry.case_sensitive entry.match_whole_words = true)) ∧
    (entry.selective_logic ≠ 0 → entry.selective_logic ≠ 1 → entry.selective_logic ≠ 2 →
      entry.selective_logic ≠ 3 → checkEntryActivation entry context cfg draw = true) := by
  have hkey : ¬ entry.key = [] := by
    intro h
    rw [h] at hprim
    simp [anyKeyMatches] at hprim
  have hred : checkEntryActivation entry context cfg draw = checkSelective entry context := by
    simp [checkEntryActivation, hconst, hkey, hprob, hprim, hsel, hsec]
  rw [hred]
  refine ⟨fun h0 => ?_, fun h1 => ?_, fun h2 => ?_, fun h3 => ?_,
    fun n0 n1 n2 n3 => ?_⟩
  · simp [checkSelective, h0, List.any_map, List.any_eq_true, Function.comp]
  · simp [checkSelective, h1, List.all_map, List.all_eq_true, Function.comp]
  · simp [checkSelective, h2, List.any_map, List.any_eq_false, Function.comp]
  · simp [checkSelective, h3, List.all_map, List.all_eq_true, Function.comp]
  · simp [checkSelective, n0, n1, n2, n3]

/-- C7 witness: the AndAll example entry against a context containing the
primary key and both secondary keys. -/
theorem c7_witness :
    checkEntryActivation exSelAll "x a b" {} 1 = true ↔
      ∀ k ∈ exSelAll.keysecondary,
        keyMatches k "x a b" exSelAll.case_sensitive exSelAll.match_whole_words = true :=
  (c7_selective_logic_combinator exSelAll "x a b" {} 1 (by decide) (by decide) (by decide)
    (by decide) (by decide) (by decide)).2.2.2.1 (by decide)

/-! ### C9 helper lemmas -/

/-- A positional match of `needle` inside `hay` yields a three-way
decomposition of `hay`. -/
theorem decomp_of_take_drop {needle hay : List Char} {i : Nat}
    (heq : (hay.drop i).take needle.length = needle) :
    hay = hay.take i ++ needle ++ hay.drop (i + needle.length) := by
  conv_lhs => rw [← List.take_append_drop i hay,
    ← List.take_append_drop needle.length (hay.drop i)]
  rw [heq, List.drop_drop, List.append_assoc]

/-- The word-boundary test at the left junction of a decomposition. -/
theorem boundaryAt_left (pre mid post : List Char) (hm : mid ≠ []) :
    boundaryAt (pre ++ mid ++ post) pre.length = (lastIsWord pre != headIsWord mid) := by
  have hmid0 : 0 < mid.length := List.length_pos.mpr hm
  have hafter : (pre ++ mid ++ post)[pre.length]? = mid.head? := by
    rw [List.append_assoc, List.getElem?_append_right (Nat.le_refl _), Nat.sub_self,
      List.getElem?_append_left hmid0, ← List.head?_eq_getElem?]
  rcases List.eq_nil_or_concat pre with hpre | ⟨l, c, hpre⟩
  · subst hpre
    simp only [List.nil_append, List.length_nil] at hafter
    simp [boundaryAt, hafter, lastIsWord, headIsWord, wordCharOpt]
  · have hlen : pre.length ≠ 0 := by
      subst hpre
      simp
    have hbefore : (pre ++ mid ++ post)[pre.length - 1]? = pre.getLast? := by
      rw [List.getElem?_append_left (by simp; omega), List.getElem?_append_left (by omega),
        ← List.getLast?_eq_getElem?]
    simp only [boundaryAt, hafter, hbefore, lastIsWord, headIsWord]
    have hne : (pre.length != 0) = true := by
      rw [bne_iff_ne]
      omega
    rw [hne, Bool.true_and]

/-- The word-boundary test at the right junction of a decomposition. -/
theorem boundaryAt_right (pre mid post : List Char) (hm : mid ≠ []) :
    boundaryAt (pre ++ mid ++ post) (pre.length + mid.length)
      = (lastIsWord mid != headIsWord post) := by
  have hmlen : mid.length ≠ 0 := by
    simpa using hm
  have hafter : (pre ++ mid ++ post)[pre.length + mid.length]? = post.head? := by
    rw [List.getElem?_append_right (by simp)]
    have hz : pre.length + mid.length - (pre ++ mid).length = 0 := by
      simp
    rw [hz, ← List.head?_eq_getElem?]
  have hbefore : (pre ++ mid ++ post)[pre.length + mid.length - 1]? = mid.getLast? := by
    rw [List.getElem?_append_left (by simp; omega),
      List.getElem?_append_right (by omega)]
    have hz : pre.length + mid.length - 1 - pre.length = mid.length - 1 := by
      omega
    rw [hz, ← List.getLast?_eq_getElem?]
  simp only [boundaryAt, hafter, hbefore, lastIsWord, headIsWord]
  have hne : (pre.length + mid.length != 0) = true := by
    rw [bne_iff_ne]
    omega
  rw [hne, Bool.true_and]

/-- The substring scan agrees with the existential decomposition reading. -/
theorem isSubstr_iff (needle hay : List Char) :
    isSubstr needle hay = true ↔ OccursAsSubstring needle hay := by
  unfold isSubstr OccursAsSubstring
  rw [List.any_eq_true]
  constructor
  · rintro ⟨i, _, hdec⟩
    have heq : (hay.drop i).take needle.length = needle := of_decide_eq_true hdec
    exact ⟨hay.take i, hay.drop (i + needle.length), decomp_of_take_drop heq⟩
  · rintro ⟨pre, post, rfl⟩
    refine ⟨pre.length, ?_, decide_eq_true ?_⟩
    · rw [List.mem_range]
      simp
      omega
    · rw [List.append_assoc, List.drop_left, List.take_left' rfl]

/-- The whole-word scan agrees with the word-boundary occurrence reading. -/
theorem wholeWordSearch_iff (needle hay : List Char) (hne : needle ≠ []) :
    wholeWordSearch needle hay = true ↔ OccursAtWordBoundary needle hay := by
  unfold wholeWordSearch OccursAtWordBoundary
  rw [List.any_eq_true]
  constructor
  · rintro ⟨i, hir, hat⟩
    rw [List.mem_range] at hir
    simp only [wholeWordAt, Bool.and_eq_true, decide_eq_true_eq] at hat
    obtain ⟨⟨heq, hb1⟩, hb2⟩ := hat
    have hmin : min needle.length (hay.length - i) = needle.length := by
      conv_rhs => rw [← heq]
      simp
    have hilen : i ≤ hay.length := by
      omega
    have hpl : (hay.take i).length = i := by
      simp
      omega
    have hdecomp : hay = hay.take i ++ needle ++ hay.drop (i + needle.length) :=
      decomp_of_take_drop heq
    refine ⟨hay.take i, hay.drop (i + needle.length), hdecomp, ?_, ?_⟩
    · have h := boundaryAt_left (hay.take i) needle (hay.drop (i + needle.length)) hne
      rw [← hdecomp, hpl] at h
      rw [h] at hb1
      exact bne_iff_ne.mp hb1
    · have h := boundaryAt_right (hay.take i) needle (hay.drop (i + needle.length)) hne
      rw [← hdecomp, hpl] at h
      rw [h] at hb2
      exact bne_iff_ne.mp hb2
  · rintro ⟨pre, post, rfl, hL, hR⟩
    refine ⟨pre.length, ?_, ?_⟩
    · rw [List.mem_range]
      simp
      omega
    · have heq : ((pre ++ needle ++ post).drop pre.length).take needle.length = needle := by
        rw [List.append_assoc, List.drop_left, List.take_left' rfl]
      simp only [wholeWordAt, Bool.and_eq_true, decide_eq_true_eq]
      refine ⟨⟨heq, ?_⟩, ?_⟩
      · rw [boundaryAt_left pre needle post hne]
        exact bne_iff_ne.mpr hL
      · rw [boundaryAt_right pre needle post hne]
        exact bne_iff_ne.mpr hR

/-! ### C9 -/

/-- C9: an empty or whitespace-only key never matches; with
`match_whole_words = true` a key matches iff it occurs in the context at word
boundaries, after case folding both sides unless `case_sensitive`; with
`match_whole_words = false` a key matches iff it is a plain substring of the
context, after case folding both sides unless `case_sensitive`. -/
theorem c9_key_matching (key context : String) (cs ww : Bool) :
    (isBlank key = true → keyMatches key context cs ww = false) ∧
    (isBlank key = false → ww = true →
      (keyMatches key context cs ww = true ↔
        OccursAtWordBoundary (foldCase cs key.toList) (foldCase cs context.toList))) ∧
    (isBlank key = false → ww = false →
      (keyMatches key context cs ww = true ↔
        OccursAsSubstring (foldCase cs key.toList) (foldCase cs context.toList))) := by
  refine ⟨fun hb => by simp [keyMatches, hb], fun hb hww => ?_, fun hb hww => ?_⟩
  · have hkey : key.toList ≠ [] := by
      intro h
      rw [show isBlank key = key.toList.all Char.isWhitespace from rfl, h] at hb
      simp at hb
    have hfold : foldCase cs key.toList ≠ [] := by
      unfold foldCase
      split
      · exact hkey
      · simpa using hkey
    rw [keyMatches, if_neg (by simp [hb]), if_pos hww]
    exact wholeWordSearch_iff _ _ hfold
  · rw [keyMatches, if_neg (by simp [hb]), hww, if_neg (by simp)]
    exact isSubstr_iff _ _

/-- C9 witness: the key "cat" in whole-word mode matches "the cat sat", and
the match is certified by a word-boundary decomposition of the context. -/
theorem c9_witness :
    keyMatches "cat" "the cat sat" false true = true ∧
    OccursAtWordBoundary (foldCase false "cat".toList) (foldCase false "the cat sat".toList) := by
  have h := (c9_key_matching "cat" "the cat sat" false true).2.1 (by decide) rfl
  exact ⟨by decide, h.mp (by decide)⟩

/-! ### Memory retrieval helper lemmas -/

/-- The returned list of a retrieval is the bump of the selected pairs. -/
theorem retrieve_result_eq (book : MemoryBook) (ctx : String) (mm mi : Option Int)
    (sb : Option String) (now : String) :
    (retrieveMemories book ctx mm mi sb now).result
      = (selectedPairs book ctx mm mi sb).map (fun p => bumpEntry now p.2) := by
  simp only [retrieveMemories]
  split <;> rfl

/-- When at least one pair is selected, the post-call book bumps exactly the
selected positions and the book is persisted. -/
theorem retrieve_book_eq (book : MemoryBook) (ctx : String) (mm mi : Option Int)
    (sb : Option String) (now : String) (h : selectedPairs book ctx mm mi sb ≠ []) :
    (retrieveMemories book ctx mm mi sb now).book.entries
      = book.entries.enum.map (fun p =>
          if p.1 ∈ (selectedPairs book ctx mm mi sb).map Prod.fst
          then bumpEntry now p.2 else p.2) ∧
    (retrieveMemories book ctx mm mi sb now).saved = true := by
  simp only [retrieveMemories]
  split
  · rename_i hc
    exact absurd (List.map_eq_nil_iff.mp hc) h
  · exact ⟨rfl, rfl⟩

/-- Python slicing only keeps elements of the original list. -/
theorem mem_of_mem_pyTake {α : Type} {n : Int} {l : List α} {a : α}
    (h : a ∈ pyTake n l) : a ∈ l := by
  unfold pyTake at h
  split at h <;> exact List.mem_of_mem_take h

/-- The strategy sort only permutes its input. -/
theorem mem_of_mem_sortStage {order : String} {l : List (Nat × MemoryEntry)}
    {p : Nat × MemoryEntry} (h : p ∈ sortStage order l) : p ∈ l := by
  unfold sortStage at h
  split_ifs at h <;>
    first
      | exact (List.mem_insertionSort _).mp h
      | exact h

/-- The keyword step only keeps elements of its input. -/
theorem mem_of_mem_kwStage {ctx : String} {s : MemoryBookSettings}
    {f : List (Nat × MemoryEntry)} {p : Nat × MemoryEntry}
    (h : p ∈ kwStage ctx s f) : p ∈ f := by
  simp only [kwStage] at h
  split_ifs at h
  · exact List.mem_of_mem_filter ((List.mem_insertionSort _).mp h)
  all_goals exact h

/-- Membership in the enabled/importance filter unpacks to the underlying
book entry and the filter conditions. -/
theorem mem_filteredPairs_unpack {entries : List MemoryEntry} {minImp : Int}
    {p : Nat × MemoryEntry} (h : p ∈ filteredPairs entries minImp) :
    entries[p.1]? = some p.2 ∧ p.2.enabled = true ∧ minImp ≤ p.2.importance := by
  obtain ⟨henum, hcond⟩ := List.mem_filter.mp h
  simp only [Bool.and_eq_true, decide_eq_true_eq] at hcond
  exact ⟨List.mem_enum_iff_getElem?.mp henum, hcond.1, hcond.2⟩

/-- Every selected pair is an indexed book entry passing the enabled and
importance filters. -/
theorem selectedPairs_unpack {book : MemoryBook} {ctx : String} {mm mi : Option Int}
    {sb : Option String} {p : Nat × MemoryEntry}
    (h : p ∈ selectedPairs book ctx mm mi sb) :
    book.entries[p.1]? = some p.2 ∧ p.2.enabled = true ∧
      mi.getD book.settings.min_importance ≤ p.2.importance :=
  mem_filteredPairs_unpack (mem_of_mem_kwStage (mem_of_mem_sortStage (mem_of_mem_pyTake h)))

/-! ### C2 -/

/-- C2 counterexample: an explicitly supplied `max_memories = 0` does not
override the book-level limit.  With a book whose settings allow two results
and two qualifying entries, the call with `max_memories = 0` returns 2
entries, not 0: Python evaluates `max_memories or settings.max_memories_per_request`
and the explicit 0 is falsy. -/
theorem c2_counterexample :
    (retrieveMemories exMemBook "" (some 0) none none "T").result.length = 2 := by decide

/-- C2 (amended): explicitly supplied arguments override the book-level
settings, except that Python truthiness makes `max_memories = 0` and
`sort_by = ""` fall back to the settings; `min_importance` overrides whenever
it is supplied (it is compared against `None`, so an explicit 0 does
override).  The retrieval result is the same as running with no explicit
arguments over a book whose settings carry the resolved values. -/
theorem c2_argument_resolution
    (book : MemoryBook) (ctx : String) (mm mi : Option Int) (sb : Option String)
    (now : String) :
    ((retrieveMemories book ctx mm mi sb now).result =
      (retrieveMemories
        { book with settings :=
          { book.settings with
              max_memories_per_request := orElseInt mm book.settings.max_memories_per_request
              min_importance := mi.getD book.settings.min_importance
              sort_by := orElseStr sb book.settings.sort_by } }
        ctx none none none now).result) ∧
    (∀ m : Int, mm = some m → m ≠ 0 →
      orElseInt mm book.settings.max_memories_per_request = m) ∧
    (mm = none → orElseInt mm book.settings.max_memories_per_request
      = book.settings.max_memories_per_request) ∧
    (mm = some 0 → orElseInt mm book.settings.max_memories_per_request
      = book.settings.max_memories_per_request) ∧
    (∀ v : Int, mi = some v → mi.getD book.settings.min_importance = v) ∧
    (mi = none → mi.getD book.settings.min_importance = book.settings.min_importance) ∧
    (∀ z : String, sb = some z → z ≠ "" → orElseStr sb book.settings.sort_by = z) ∧
    (sb = none → orElseStr sb book.settings.sort_by = book.settings.sort_by) ∧
    (sb = some "" → orElseStr sb book.settings.sort_by = book.settings.sort_by) := by
  refine ⟨?_, ?_, ?_, ?_, ?_, ?_, ?_, ?_, ?_⟩
  · have hsel : selectedPairs book ctx mm mi sb
        = selectedPairs
          { book with settings :=
            { book.settings with
                max_memories_per_request := orElseInt mm book.settings.max_memories_per_request
                min_importance := mi.getD book.settings.min_importance
                sort_by := orElseStr sb book.settings.sort_by } }
          ctx none none none := by
      cases mm <;> cases mi <;> cases sb <;> rfl
    rw [retrieve_result_eq, retrieve_result_eq, hsel]
  · rintro m rfl hm
    simp [orElseInt, hm]
  · rintro rfl
    rfl
  · rintro rfl
    rfl
  · rintro v rfl
    rfl
  · rintro rfl
    rfl
  · rintro z rfl hz
    simp [orElseStr, hz]
  · rintro rfl
    rfl
  · rintro rfl
    rfl

/-- C2 witness: explicit limit 1, floor 70 and strategy "recency" are all
resolved to themselves on the example book. -/
theorem c2_witness :
    ((retrieveMemories exMemBook "fish" (some 1) (some 70) (some "recency") "T").result =
      (retrieveMemories
        { exMemBook with settings :=
          { exMemBook.settings with
              max_memories_per_request :=
                orElseInt (some 1) exMemBook.settings.max_memories_per_request
              min_importance := (some (70 : Int)).getD exMemBook.settings.min_importance
              sort_by := orElseStr (some "recency") exMemBook.settings.sort_by } }
        "fish" none none none "T").result) ∧
    orElseInt (some 1) exMemBook.settings.max_memories_per_request = 1 ∧
    (some (70 : Int)).getD exMemBook.settings.min_importance = 70 ∧
    orElseStr (some "recency") exMemBook.settings.sort_by = "recency" := by
  have h := c2_argument_resolution exMemBook "fish" (some 1) (some 70) (some "recency") "T"
  exact ⟨h.1, h.2.1 1 rfl (by decide), h.2.2.2.2.1 70 rfl,
    h.2.2.2.2.2.2.1 "recency" rfl (by decide)⟩

/-! ### C3 -/

/-- C3: retrieval draws candidates only from enabled entries at or above the
effective importance floor (every returned entry is the bump of such an
entry, so an entry below the floor is never returned regardless of keyword
score); when the context is non-blank, keyword retrieval is enabled,
extraction yields keywords, and some filtered entry scores positive, the
candidate set becomes exactly the positively-scoring filtered entries; when
no filtered entry scores positive, the keyword step keeps the full filtered
set instead of returning empty. -/
theorem c3_candidate_filtering
    (book : MemoryBook) (ctx : String) (mm mi : Option Int) (sb : Option String)
    (now : String) :
    (∀ e ∈ (retrieveMemories book ctx mm mi sb now).result,
      ∃ e0, e0 ∈ book.entries ∧ e = bumpEntry now e0 ∧ e0.enabled = true ∧
        mi.getD book.settings.min_importance ≤ e0.importance) ∧
    ((isBlank ctx = false ∧ book.settings.use_keyword_retrieval = true ∧
        extractKeywords ctx ≠ [] ∧
        (∃ q ∈ filteredPairs book.entries (mi.getD book.settings.min_importance),
          0 < keywordScore q.2 (extractKeywords ctx))) →
      ∀ p : Nat × MemoryEntry,
        (p ∈ kwStage ctx book.settings
            (filteredPairs book.entries (mi.getD book.settings.min_importance)) ↔
          (p ∈ filteredPairs book.entries (mi.getD book.settings.min_importance) ∧
            0 < keywordScore p.2 (extractKeywords ctx)))) ∧
    ((∀ q ∈ filteredPairs book.entries (mi.getD book.settings.min_importance),
        keywordScore q.2 (extractKeywords ctx) = 0) →
      kwStage ctx book.settings
          (filteredPairs book.entries (mi.getD book.settings.min_importance))
        = filteredPairs book.entries (mi.getD book.settings.min_importance)) := by
  refine ⟨?_, ?_, ?_⟩
  · intro e he
    rw [retrieve_result_eq] at he
    obtain ⟨p, hp, hbump⟩ := List.mem_map.mp he
    obtain ⟨hget, hen, himp⟩ := selectedPairs_unpack hp
    exact ⟨p.2, List.mem_iff_getElem?.mpr ⟨p.1, hget⟩, hbump.symm, hen, himp⟩
  · rintro ⟨hctx, hukr, hkws, q, hq, hscore⟩ p
    have hscored :
        (filteredPairs book.entries (mi.getD book.settings.min_importance)).filter
            (fun r => 0 < keywordScore r.2 (extractKeywords ctx)) ≠ [] :=
      List.ne_nil_of_mem (List.mem_filter.mpr ⟨hq, by simpa using hscore⟩)
    rw [kwStage, if_pos ⟨hctx, hukr⟩, if_pos hkws, if_pos hscored]
    rw [List.mem_insertionSort, List.mem_filter]
    simp
  · intro hzero
    have hscored :
        (filteredPairs book.entries (mi.getD book.settings.min_importance)).filter
            (fun r => 0 < keywordScore r.2 (extractKeywords ctx)) = [] := by
      rw [List.filter_eq_nil_iff]
      intro q hq
      simp [hzero q hq]
    simp only [kwStage]
    split_ifs with h1 h2 h3
    · exact absurd h3 (by simpa using hscored)
    all_goals rfl

/-- C3 witness: with context "fish tales" over the example book, the keyword
step keeps exactly the positively scoring entry pairs; instantiated at the
pair for the entry whose content mentions fish. -/
theorem c3_witness :
    (0, exMemA) ∈ kwStage "fish tales" exMemBook.settings
        (filteredPairs exMemBook.entries
          ((none : Option Int).getD exMemBook.settings.min_importance)) ↔
      ((0, exMemA) ∈ filteredPairs exMemBook.entries
          ((none : Option Int).getD exMemBook.settings.min_importance) ∧
        0 < keywordScore exMemA (extractKeywords "fish tales")) := by
  have h := (c3_candidate_filtering exMemBook "fish tales" none none none "T").2.1
  exact h ⟨by decide, by decide, by decide, ⟨(0, exMemA), by decide, by decide⟩⟩ (0, exMemA)

/-! ### C4 -/

/-- At a selected position, the post-call book holds exactly the bumped
entry, and the book was persisted. -/
theorem retrieve_bumps_selected (book : MemoryBook) (ctx : String) (mm mi : Option Int)
    (sb : Option String) (now : String) {i : Nat} {e : MemoryEntry}
    (h : (i, e) ∈ selectedPairs book ctx mm mi sb) :
    bumpEntry now e ∈ (retrieveMemories book ctx mm mi sb now).result ∧
    (retrieveMemories book ctx mm mi sb now).book.entries[i]? = some (bumpEntry now e) ∧
    (retrieveMemories book ctx mm mi sb now).saved = true := by
  have hget : book.entries[i]? = some e := (selectedPairs_unpack h).1
  have hne : selectedPairs book ctx mm mi sb ≠ [] := List.ne_nil_of_mem h
  obtain ⟨hentries, hsaved⟩ := retrieve_book_eq book ctx mm mi sb now hne
  refine ⟨?_, ?_, hsaved⟩
  · rw [retrieve_result_eq]
    exact List.mem_map.mpr ⟨(i, e), h, rfl⟩
  · have hidx : i ∈ (selectedPairs book ctx mm mi sb).map Prod.fst :=
      List.mem_map.mpr ⟨(i, e), h, rfl⟩
    rw [hentries, List.getElem?_map, List.getElem?_enum, hget]
    simp [hidx]

/-- C4: every entry included in the returned list of a retrieval has its
`access_count` incremented by exactly one and its `last_accessed_at` set to
the retrieval time, in the returned copy and in the persisted book; two
retrievals in sequence that both select the entry's position leave its
persisted `access_count` larger by exactly two. -/
theorem c4_access_bookkeeping
    (book : MemoryBook) (ctx ctx' : String) (mm mi mm' mi' : Option Int)
    (sb sb' : Option String) (now now' : String) (i : Nat) (e : MemoryEntry)
    (h1 : (i, e) ∈ selectedPairs book ctx mm mi sb) :
    (bumpEntry now e ∈ (retrieveMemories book ctx mm mi sb now).result ∧
      (bumpEntry now e).access_count = e.access_count + 1 ∧
      (bumpEntry now e).last_accessed_at = now ∧
      (retrieveMemories book ctx mm mi sb now).book.entries[i]? = some (bumpEntry now e) ∧
      (retrieveMemories book ctx mm mi sb now).saved = true) ∧
    ((i, bumpEntry now e) ∈
        selectedPairs (retrieveMemories book ctx mm mi sb now).book ctx' mm' mi' sb' →
      (retrieveMemories (retrieveMemories book ctx mm mi sb now).book
          ctx' mm' mi' sb' now').book.entries[i]?
        = some (bumpEntry now' (bumpEntry now e)) ∧
      (bumpEntry now' (bumpEntry now e)).access_count = e.access_count + 2) := by
  obtain ⟨hres, hentry, hsaved⟩ := retrieve_bumps_selected book ctx mm mi sb now h1
  refine ⟨⟨hres, rfl, rfl, hentry, hsaved⟩, fun h2 => ?_⟩
  obtain ⟨_, hentry2, _⟩ :=
    retrieve_bumps_selected (retrieveMemories book ctx mm mi sb now).book ctx' mm' mi' sb'
      now' h2
  refine ⟨hentry2, ?_⟩
  simp only [bumpEntry]
  omega

/-- C4 witness: retrieving the example book twice accumulates an access count
of 2 on the higher-importance entry, at its position in the persisted book. -/
theorem c4_witness :
    (retrieveMemories (retrieveMemories exMemBook "" none none none "T").book
        "" none none none "U").book.entries[1]?
      = some (bumpEntry "U" (bumpEntry "T" exMemB)) ∧
    (bumpEntry "U" (bumpEntry "T" exMemB)).access_count = exMemB.access_count + 2 := by
  have h := c4_access_bookkeeping exMemBook "" "" none none none none none none "T" "U" 1
    exMemB (by decide)
  exact h.2 (by decide)

/-! ### C10 -/

/-- C10 (frame property): a book entry at a position not selected by the
retrieval is left completely unchanged, and when the returned list is empty
the book is not persisted (and its state is untouched). -/
theorem c10_retrieval_frame
    (book : MemoryBook) (ctx : String) (mm mi : Option Int) (sb : Option String)
    (now : String) (i : Nat) :
    (i ∉ (selectedPairs book ctx mm mi sb).map Prod.fst →
      (retrieveMemories book ctx mm mi sb now).book.entries[i]? = book.entries[i]?) ∧
    ((retrieveMemories book ctx mm mi sb now).result = [] →
      (retrieveMemories book ctx mm mi sb now).saved = false ∧
      (retrieveMemories book ctx mm mi sb now).book = book) := by
  constructor
  · intro hnot
    simp only [retrieveMemories]
    split
    · rfl
    · simp only [List.getElem?_map, List.getElem?_enum]
      cases hcase : book.entries[i]? with
      | none => rfl
      | some a =>
        simp [hnot]
  · intro hres
    simp only [retrieveMemories] at hres ⊢
    split at hres
    · rename_i hc
      simp [hc]
    · rename_i hc
      exact absurd hres hc

/-- C10 witness: an out-of-range position (hence never selected) is unchanged
by a retrieval over the example book. -/
theorem c10_witness :
    (retrieveMemories exMemBook "" none none none "T").book.entries[5]?
      = exMemBook.entries[5]? :=
  (c10_retrieval_frame exMemBook "" none none none "T" 5).1 (by decide)

/-! ### C6 -/

/-- C6: the final ordering of a retrieval is produced by the effective sort
strategy applied after keyword scoring (the selection pipeline is filter,
keyword step, strategy sort, truncate); each named strategy stably re-sorts
the keyword-step output descending by its own field — importance, last-access
timestamp, or access count — overriding the keyword-score order (the sort is
a permutation, pairwise descending in that field, and stable: filtering to
any fixed field value preserves the incoming order); any other strategy value
leaves the incoming order untouched. -/
theorem c6_sort_strategy_final_order :
    (∀ (book : MemoryBook) (ctx : String) (mm mi : Option Int) (sb : Option String),
      selectedPairs book ctx mm mi sb
        = pyTake (orElseInt mm book.settings.max_memories_per_request)
            (sortStage (orElseStr sb book.settings.sort_by)
              (kwStage ctx book.settings
                (filteredPairs book.entries (mi.getD book.settings.min_importance))))) ∧
    (∀ (order : String) (l : List (Nat × MemoryEntry)),
      (order = "importance" →
        List.Perm (sortStage order l) l ∧
        (sortStage order l).Pairwise (descBy (fun p : Nat × MemoryEntry => p.2.importance)) ∧
        (∀ v : Int, (sortStage order l).filter (fun p => p.2.importance == v)
          = l.filter (fun p => p.2.importance == v))) ∧
      (order = "recency" →
        List.Perm (sortStage order l) l ∧
        (sortStage order l).Pairwise
          (descBy (fun p : Nat × MemoryEntry => p.2.last_accessed_at)) ∧
        (∀ v : String, (sortStage order l).filter (fun p => p.2.last_accessed_at == v)
          = l.filter (fun p => p.2.last_accessed_at == v))) ∧
      (order = "access_count" →
        List.Perm (sortStage order l) l ∧
        (sortStage order l).Pairwise (descBy (fun p : Nat × MemoryEntry => p.2.access_count)) ∧
        (∀ v : Int, (sortStage order l).filter (fun p => p.2.access_count == v)
          = l.filter (fun p => p.2.access_count == v))) ∧
      (order ≠ "importance" → order ≠ "recency" → order ≠ "access_count" →
        sortStage order l = l)) := by
  refine ⟨fun _ _ _ _ _ => rfl,
    fun order l => ⟨fun h => ?_, fun h => ?_, fun h => ?_, fun h1 h2 h3 => ?_⟩⟩
  · subst h
    have hs : sortStage "importance" l
        = l.insertionSort (descBy (fun p : Nat × MemoryEntry => p.2.importance)) := rfl
    rw [hs]
    refine ⟨List.perm_insertionSort _ _, List.sorted_insertionSort _ _, fun v => ?_⟩
    apply filter_insertionSort_stable
    intro a b ha hb
    have ha' : a.2.importance = v := by simpa using ha
    have hb' : b.2.importance = v := by simpa using hb
    show b.2.importance ≤ a.2.importance
    rw [ha', hb']
  · subst h
    have hs : sortStage "recency" l
        = l.insertionSort (descBy (fun p : Nat × MemoryEntry => p.2.last_accessed_at)) := rfl
    rw [hs]
    refine ⟨List.perm_insertionSort _ _, List.sorted_insertionSort _ _, fun v => ?_⟩
    apply filter_insertionSort_stable
    intro a b ha hb
    have ha' : a.2.last_accessed_at = v := by simpa using ha
    have hb' : b.2.last_accessed_at = v := by simpa using hb
    show b.2.last_accessed_at ≤ a.2.last_accessed_at
    rw [ha', hb']
  · subst h
    have hs : sortStage "access_count" l
        = l.insertionSort (descBy (fun p : Nat × MemoryEntry => p.2.access_count)) := rfl
    rw [hs]
    refine ⟨List.perm_insertionSort _ _, List.sorted_insertionSort _ _, fun v => ?_⟩
    apply filter_insertionSort_stable
    intro a b ha hb
    have ha' : a.2.access_count = v := by simpa using ha
    have hb' : b.2.access_count = v := by simpa using hb
    show b.2.access_count ≤ a.2.access_count
    rw [ha', hb']
  · unfold sortStage
    rw [if_neg h1, if_neg h2, if_neg h3]

/-- C6 witness: the importance strategy permutes a concrete two-element
keyword-step output. -/
theorem c6_witness :
    List.Perm (sortStage "importance" [(0, exMemA), (1, exMemB)])
      [(0, exMemA), (1, exMemB)] :=
  ((c6_sort_strategy_final_order.2 "importance" [(0, exMemA), (1, exMemB)]).1 rfl).1

end Nanobot
